import Mathlib

/-!
Shallow embedding of `msckf_vio/include/initial_sfm/integration_base.h`
(IMU preintegration class `initial_sfm::IntegrationBase`, adapted from
VINS-Mono), together with theorems settling the specification claims.

Scalars are real numbers; `Vec3` mirrors `Eigen::Vector3d`, `Quat`
mirrors `Eigen::Quaterniond` (Hamilton product, Eigen's
`_transformVector`, Eigen's zero-guarded `normalize()` and `inverse()`).
The 15x15 and 15x18 matrices are Mathlib matrices over `Fin`-indexed
types.  The fields `step_jacobian` and `step_V` of the C++ class are
never written or read by any member function, so they are omitted from
the state.
-/

namespace SRVIO

/-- A 3-vector of reals, `Eigen::Vector3d`. -/
structure Vec3 where
  x : ℝ
  y : ℝ
  z : ℝ

namespace Vec3

/-- `Eigen::Vector3d::Zero()`. -/
def zero : Vec3 := ⟨0, 0, 0⟩

/-- Componentwise addition. -/
def add (a b : Vec3) : Vec3 := ⟨a.x + b.x, a.y + b.y, a.z + b.z⟩

/-- Componentwise subtraction. -/
def sub (a b : Vec3) : Vec3 := ⟨a.x - b.x, a.y - b.y, a.z - b.z⟩

/-- Scalar multiplication. -/
def smul (c : ℝ) (a : Vec3) : Vec3 := ⟨c * a.x, c * a.y, c * a.z⟩

/-- Cross product, `Eigen::Vector3d::cross`. -/
def cross (a b : Vec3) : Vec3 :=
  ⟨a.y * b.z - a.z * b.y, a.z * b.x - a.x * b.z, a.x * b.y - a.y * b.x⟩

instance : Add Vec3 := ⟨Vec3.add⟩
instance : Sub Vec3 := ⟨Vec3.sub⟩
instance : SMul ℝ Vec3 := ⟨Vec3.smul⟩

end Vec3

/-- A quaternion, `Eigen::Quaterniond`, stored as `(w, x, y, z)`. -/
structure Quat where
  w : ℝ
  x : ℝ
  y : ℝ
  z : ℝ

namespace Quat

/-- `Eigen::Quaterniond::Identity()`. -/
def one : Quat := ⟨1, 0, 0, 0⟩

/-- The vector (imaginary) part, `Eigen::Quaterniond::vec()`. -/
def vec (q : Quat) : Vec3 := ⟨q.x, q.y, q.z⟩

/-- Hamilton product, `Eigen::Quaterniond::operator*`. -/
def mul (p q : Quat) : Quat :=
  ⟨p.w * q.w - p.x * q.x - p.y * q.y - p.z * q.z,
   p.w * q.x + p.x * q.w + p.y * q.z - p.z * q.y,
   p.w * q.y - p.x * q.z + p.y * q.w + p.z * q.x,
   p.w * q.z + p.x * q.y - p.y * q.x + p.z * q.w⟩

instance : Mul Quat := ⟨Quat.mul⟩

/-- Scalar multiplication on coefficients. -/
def smul (c : ℝ) (q : Quat) : Quat := ⟨c * q.w, c * q.x, c * q.y, c * q.z⟩

instance : SMul ℝ Quat := ⟨Quat.smul⟩

/-- `Eigen::Quaterniond::squaredNorm()` of the coefficient vector. -/
def squaredNorm (q : Quat) : ℝ := q.w * q.w + q.x * q.x + q.y * q.y + q.z * q.z

/-- Eigen's `q * v` (`Quaternion::_transformVector`):
`uv = 2 * (q.vec × v); v + q.w * uv + q.vec × uv`.  Exact rotation only
for unit quaternions, but Eigen applies the same formula to any
quaternion, and so do we. -/
def transform (q : Quat) (v : Vec3) : Vec3 :=
  let uv : Vec3 := (2 : ℝ) • (q.vec.cross v)
  v + q.w • uv + q.vec.cross uv

/-- `Eigen::Quaterniond::conjugate()`. -/
def conjugate (q : Quat) : Quat := ⟨q.w, -q.x, -q.y, -q.z⟩

/-- Eigen's `MatrixBase::normalize()` applied to the coefficients:
divide by the norm when the squared norm is positive, otherwise leave
the quaternion unchanged. -/
noncomputable def normalize (q : Quat) : Quat :=
  if 0 < q.squaredNorm then (1 / Real.sqrt q.squaredNorm) • q else q

/-- `Eigen::Quaterniond::inverse()`: conjugate over squared norm when
the squared norm is positive, otherwise the zero quaternion. -/
noncomputable def inverse (q : Quat) : Quat :=
  if 0 < q.squaredNorm then (1 / q.squaredNorm) • q.conjugate else ⟨0, 0, 0, 0⟩

/-- `Eigen::Quaterniond::toRotationMatrix()` (unit-norm assumed formula). -/
def toRotationMatrix (q : Quat) : Matrix (Fin 3) (Fin 3) ℝ :=
  !![1 - 2 * (q.y * q.y + q.z * q.z), 2 * (q.x * q.y - q.z * q.w), 2 * (q.x * q.z + q.y * q.w);
     2 * (q.x * q.y + q.z * q.w), 1 - 2 * (q.x * q.x + q.z * q.z), 2 * (q.y * q.z - q.x * q.w);
     2 * (q.x * q.z - q.y * q.w), 2 * (q.y * q.z + q.x * q.w), 1 - 2 * (q.x * q.x + q.y * q.y)]

end Quat

/-- Action of a 3x3 matrix on a `Vec3`. -/
def mulv (M : Matrix (Fin 3) (Fin 3) ℝ) (v : Vec3) : Vec3 :=
  ⟨M 0 0 * v.x + M 0 1 * v.y + M 0 2 * v.z,
   M 1 0 * v.x + M 1 1 * v.y + M 1 2 * v.z,
   M 2 0 * v.x + M 2 1 * v.y + M 2 2 * v.z⟩

/-- Skew-symmetric cross-product matrix `[v]x` as written in
`midPointIntegration` (`R_w_x`, `R_a_0_x`, `R_a_1_x`). -/
def skew (v : Vec3) : Matrix (Fin 3) (Fin 3) ℝ :=
  !![0, -v.z, v.y;
     v.z, 0, -v.x;
     -v.y, v.x, 0]

/-- `ACC_N` (accelerometer white-noise density), line 14. -/
def ACC_N : ℝ := 0.08

/-- `ACC_W` (accelerometer bias random-walk density), line 15. -/
def ACC_W : ℝ := 0.00004

/-- `GYR_N` (gyroscope white-noise density), line 16. -/
def GYR_N : ℝ := 0.004

/-- `GYR_W` (gyroscope bias random-walk density), line 17. -/
def GYR_W : ℝ := 2.0e-6

/-- Gravity vector `G {0, 0, 9.81}`, line 18. -/
def G : Vec3 := ⟨0, 0, 9.81⟩

/-- Index into a 15-dimensional error state from a block index (one of
the five 3-blocks `O_P, O_R, O_V, O_BA, O_BG`) and an offset inside the
block. -/
def idx15 (b : Fin 5) (i : Fin 3) : Fin 15 := ⟨3 * b.1 + i.1, by omega⟩

/-- Index into the 18-dimensional noise vector from a block index and an
offset inside the block. -/
def idx18 (b : Fin 6) (i : Fin 3) : Fin 18 := ⟨3 * b.1 + i.1, by omega⟩

/-- Assemble a 15x15 matrix from 3x3 blocks. -/
def asm15x15 (B : Fin 5 → Fin 5 → Matrix (Fin 3) (Fin 3) ℝ) :
    Matrix (Fin 15) (Fin 15) ℝ :=
  fun i j => B ⟨i.1 / 3, by omega⟩ ⟨j.1 / 3, by omega⟩ ⟨i.1 % 3, by omega⟩ ⟨j.1 % 3, by omega⟩

/-- Assemble a 15x18 matrix from 3x3 blocks. -/
def asm15x18 (B : Fin 5 → Fin 6 → Matrix (Fin 3) (Fin 3) ℝ) :
    Matrix (Fin 15) (Fin 18) ℝ :=
  fun i j => B ⟨i.1 / 3, by omega⟩ ⟨j.1 / 3, by omega⟩ ⟨i.1 % 3, by omega⟩ ⟨j.1 % 3, by omega⟩

/-- Extract the 3x3 block of a 15x15 matrix at block row `r` and block
column `c` (`jacobian.block<3, 3>(3*r, 3*c)`). -/
def blk15 (M : Matrix (Fin 15) (Fin 15) ℝ) (r c : Fin 5) :
    Matrix (Fin 3) (Fin 3) ℝ :=
  fun i j => M (idx15 r i) (idx15 c j)

/-- The six squared noise densities on the diagonal blocks of the 18x18
noise matrix, lines 55-60. -/
def noiseDiag6 : Fin 6 → ℝ :=
  ![ACC_N * ACC_N, GYR_N * GYR_N, ACC_N * ACC_N, GYR_N * GYR_N, ACC_W * ACC_W, GYR_W * GYR_W]

/-- The constant 18x18 noise matrix built in the constructor
(lines 53-60): zero except the six diagonal 3x3 blocks, each a squared
noise density times the identity — i.e. the diagonal matrix whose `j`-th
entry is the squared density of block `j / 3`. -/
def noiseMat : Matrix (Fin 18) (Fin 18) ℝ :=
  Matrix.diagonal (fun j => noiseDiag6 ⟨j.1 / 3, by omega⟩)

/-- The state of an `IntegrationBase` object (member variables,
lines 263-284; `step_jacobian`/`step_V` are never used and omitted). -/
structure IntegrationBase where
  dt : ℝ
  acc_0 : Vec3
  gyr_0 : Vec3
  acc_1 : Vec3
  gyr_1 : Vec3
  linearized_acc : Vec3
  linearized_gyr : Vec3
  linearized_ba : Vec3
  linearized_bg : Vec3
  jacobian : Matrix (Fin 15) (Fin 15) ℝ
  covariance : Matrix (Fin 15) (Fin 15) ℝ
  noise : Matrix (Fin 18) (Fin 18) ℝ
  sum_dt : ℝ
  delta_p : Vec3
  delta_q : Quat
  delta_v : Vec3
  dt_buf : List ℝ
  acc_buf : List Vec3
  gyr_buf : List Vec3

namespace IntegrationBase

/-- The constructor (lines 40-61).  The members `dt`, `acc_1`, `gyr_1`
are left uninitialized by the C++ constructor and are always written by
`propagate` before being read; we initialize them to zero. -/
def init (acc0 gyr0 ba bg : Vec3) : IntegrationBase :=
  { dt := 0
    acc_0 := acc0
    gyr_0 := gyr0
    acc_1 := Vec3.zero
    gyr_1 := Vec3.zero
    linearized_acc := acc0
    linearized_gyr := gyr0
    linearized_ba := ba
    linearized_bg := bg
    jacobian := 1
    covariance := 0
    noise := noiseMat
    sum_dt := 0
    delta_p := Vec3.zero
    delta_q := Quat.one
    delta_v := Vec3.zero
    dt_buf := []
    acc_buf := []
    gyr_buf := [] }

end IntegrationBase

/-- The 15x15 error-state transition matrix `F` built in
`midPointIntegration` (lines 160-175), as a function of the step inputs
and of the pre- and post-update orientation. -/
def Fmat (dt0 : ℝ) (acc0 gyr0 acc1 gyr1 : Vec3) (dq rdq : Quat)
    (ba bg : Vec3) : Matrix (Fin 15) (Fin 15) ℝ :=
  let w_x := (0.5 : ℝ) • (gyr0 + gyr1) - bg
  let a_0_x := acc0 - ba
  let a_1_x := acc1 - ba
  let R_w_x := skew w_x
  let R_a_0_x := skew a_0_x
  let R_a_1_x := skew a_1_x
  let R0 := dq.toRotationMatrix
  let R1 := rdq.toRotationMatrix
  asm15x15 fun b c =>
    if b = 0 ∧ c = 0 then 1
    else if b = 0 ∧ c = 1 then
      (-0.25 * dt0 * dt0) • (R0 * R_a_0_x) +
        (-0.25 * dt0 * dt0) • (R1 * R_a_1_x * (1 - dt0 • R_w_x))
    else if b = 0 ∧ c = 2 then dt0 • 1
    else if b = 0 ∧ c = 3 then (-0.25 * dt0 * dt0) • (R0 + R1)
    else if b = 0 ∧ c = 4 then (-0.25 * dt0 * dt0 * -dt0) • (R1 * R_a_1_x)
    else if b = 1 ∧ c = 1 then 1 - dt0 • R_w_x
    else if b = 1 ∧ c = 4 then (-1.0 * dt0) • 1
    else if b = 2 ∧ c = 1 then
      (-0.5 * dt0) • (R0 * R_a_0_x) +
        (-0.5 * dt0) • (R1 * R_a_1_x * (1 - dt0 • R_w_x))
    else if b = 2 ∧ c = 2 then 1
    else if b = 2 ∧ c = 3 then (-0.5 * dt0) • (R0 + R1)
    else if b = 2 ∧ c = 4 then (-0.5 * dt0 * -dt0) • (R1 * R_a_1_x)
    else if b = 3 ∧ c = 3 then 1
    else if b = 4 ∧ c = 4 then 1
    else 0

/-- The 15x18 noise-input matrix `V` built in `midPointIntegration`
(lines 177-189). -/
def Vmat (dt0 : ℝ) (acc1 : Vec3) (dq rdq : Quat) (ba : Vec3) :
    Matrix (Fin 15) (Fin 18) ℝ :=
  let a_1_x := acc1 - ba
  let R_a_1_x := skew a_1_x
  let R0 := dq.toRotationMatrix
  let R1 := rdq.toRotationMatrix
  asm15x18 fun b c =>
    if b = 0 ∧ c = 0 then (0.25 * dt0 * dt0) • R0
    else if b = 0 ∧ c = 1 then (0.25 * -1 * dt0 * dt0 * 0.5 * dt0) • (R1 * R_a_1_x)
    else if b = 0 ∧ c = 2 then (0.25 * dt0 * dt0) • R1
    else if b = 0 ∧ c = 3 then (0.25 * -1 * dt0 * dt0 * 0.5 * dt0) • (R1 * R_a_1_x)
    else if b = 1 ∧ c = 1 then (0.5 * dt0) • 1
    else if b = 1 ∧ c = 3 then (0.5 * dt0) • 1
    else if b = 2 ∧ c = 0 then (0.5 * dt0) • R0
    else if b = 2 ∧ c = 1 then (0.5 * -1 * dt0 * 0.5 * dt0) • (R1 * R_a_1_x)
    else if b = 2 ∧ c = 2 then (0.5 * dt0) • R1
    else if b = 2 ∧ c = 3 then (0.5 * -1 * dt0 * 0.5 * dt0) • (R1 * R_a_1_x)
    else if b = 3 ∧ c = 4 then dt0 • 1
    else if b = 4 ∧ c = 5 then dt0 • 1
    else 0

/-- Result record of `midPointIntegration`: the five output parameters
plus the (possibly) updated `jacobian` and `covariance` members. -/
structure MidPointResult where
  result_delta_p : Vec3
  result_delta_q : Quat
  result_delta_v : Vec3
  result_linearized_ba : Vec3
  result_linearized_bg : Vec3
  jacobian : Matrix (Fin 15) (Fin 15) ℝ
  covariance : Matrix (Fin 15) (Fin 15) ℝ

/-- `IntegrationBase::midPointIntegration` (lines 95-198).  The member
reads/writes of `jacobian`, `covariance`, `noise` are made explicit
arguments and result fields. -/
noncomputable def midPointIntegration (dt0 : ℝ) (acc0 gyr0 acc1 gyr1 : Vec3)
    (delta_p : Vec3) (delta_q : Quat) (delta_v : Vec3)
    (linearized_ba linearized_bg : Vec3)
    (jacobian covariance : Matrix (Fin 15) (Fin 15) ℝ)
    (noise : Matrix (Fin 18) (Fin 18) ℝ)
    (update_jacobian : Bool) : MidPointResult :=
  let un_acc_0 := delta_q.transform (acc0 - linearized_ba)
  let un_gyr := (0.5 : ℝ) • (gyr0 + gyr1) - linearized_bg
  let result_delta_q :=
    delta_q * ⟨1, un_gyr.x * dt0 / 2, un_gyr.y * dt0 / 2, un_gyr.z * dt0 / 2⟩
  let un_acc_1 := result_delta_q.transform (acc1 - linearized_ba)
  let un_acc := (0.5 : ℝ) • (un_acc_0 + un_acc_1)
  let result_delta_p := delta_p + dt0 • delta_v + (0.5 * dt0 * dt0) • un_acc
  let result_delta_v := delta_v + dt0 • un_acc
  let F := Fmat dt0 acc0 gyr0 acc1 gyr1 delta_q result_delta_q linearized_ba linearized_bg
  let V := Vmat dt0 acc1 delta_q result_delta_q linearized_ba
  { result_delta_p := result_delta_p
    result_delta_q := result_delta_q
    result_delta_v := result_delta_v
    result_linearized_ba := linearized_ba
    result_linearized_bg := linearized_bg
    jacobian := if update_jacobian then F * jacobian else jacobian
    covariance :=
      if update_jacobian then F * covariance * F.transpose + V * noise * V.transpose
      else covariance }

namespace IntegrationBase

/-- `IntegrationBase::propagate` (lines 200-229). -/
noncomputable def propagate (s : IntegrationBase) (dt0 : ℝ) (acc1 gyr1 : Vec3) : IntegrationBase :=
  let r := midPointIntegration dt0 s.acc_0 s.gyr_0 acc1 gyr1 s.delta_p s.delta_q s.delta_v
    s.linearized_ba s.linearized_bg s.jacobian s.covariance s.noise true
  { s with
    dt := dt0
    acc_1 := acc1
    gyr_1 := gyr1
    delta_p := r.result_delta_p
    delta_q := r.result_delta_q.normalize
    delta_v := r.result_delta_v
    linearized_ba := r.result_linearized_ba
    linearized_bg := r.result_linearized_bg
    jacobian := r.jacobian
    covariance := r.covariance
    sum_dt := s.sum_dt + dt0
    acc_0 := acc1
    gyr_0 := gyr1 }

/-- `IntegrationBase::push_back` (lines 63-69). -/
noncomputable def push_back (s : IntegrationBase) (dt0 : ℝ) (acc gyr : Vec3) : IntegrationBase :=
  propagate
    { s with
      dt_buf := s.dt_buf ++ [dt0]
      acc_buf := s.acc_buf ++ [acc]
      gyr_buf := s.gyr_buf ++ [gyr] }
    dt0 acc gyr

/-- The reset performed at the top of `repropagate` (lines 73-82),
before the buffered samples are replayed. -/
def repropagate_reset (s : IntegrationBase) (ba bg : Vec3) : IntegrationBase :=
  { s with
    sum_dt := 0
    acc_0 := s.linearized_acc
    gyr_0 := s.linearized_gyr
    delta_p := Vec3.zero
    delta_q := Quat.one
    delta_v := Vec3.zero
    linearized_ba := ba
    linearized_bg := bg
    jacobian := 1
    covariance := 0 }

/-- `IntegrationBase::repropagate` (lines 71-85): reset, then replay
every buffered sample through `propagate` in original order. -/
noncomputable def repropagate (s : IntegrationBase) (ba bg : Vec3) : IntegrationBase :=
  (s.dt_buf.zip (s.acc_buf.zip s.gyr_buf)).foldl
    (fun t p => t.propagate p.1 p.2.1 p.2.2) (repropagate_reset s ba bg)

end IntegrationBase

/-- Modelled from the spec: `msckf_vio::deltaQ` from `math_utils.hpp` is
not part of the sources; per the spec it is the small-rotation
quaternion of a rotation vector, `(1, θx/2, θy/2, θz/2)`. -/
noncomputable def deltaQ (theta : Vec3) : Quat :=
  ⟨1, theta.x / 2, theta.y / 2, theta.z / 2⟩

/-- The 15-dimensional residual of `evaluate`, as its five 3-blocks at
offsets `O_P, O_R, O_V, O_BA, O_BG`. -/
structure Residual where
  rp : Vec3
  rq : Vec3
  rv : Vec3
  rba : Vec3
  rbg : Vec3

namespace IntegrationBase

/-- `IntegrationBase::evaluate` (lines 231-261).  The method assigns no
member variable, so its embedding returns the residual together with the
unchanged state. -/
noncomputable def evaluate (s : IntegrationBase) (Pi : Vec3) (Qi : Quat) (Vi Bai Bgi : Vec3)
    (Pj : Vec3) (Qj : Quat) (Vj Baj Bgj : Vec3) : Residual × IntegrationBase :=
  let dp_dba := blk15 s.jacobian 0 3
  let dp_dbg := blk15 s.jacobian 0 4
  let dq_dbg := blk15 s.jacobian 1 4
  let dv_dba := blk15 s.jacobian 2 3
  let dv_dbg := blk15 s.jacobian 2 4
  let dba := Bai - s.linearized_ba
  let dbg := Bgi - s.linearized_bg
  let corrected_delta_q := s.delta_q * deltaQ (mulv dq_dbg dbg)
  let corrected_delta_v := s.delta_v + mulv dv_dba dba + mulv dv_dbg dbg
  let corrected_delta_p := s.delta_p + mulv dp_dba dba + mulv dp_dbg dbg
  let rp := Qi.inverse.transform
      ((0.5 * s.sum_dt * s.sum_dt) • G + Pj - Pi - s.sum_dt • Vi) - corrected_delta_p
  let rq := (2 : ℝ) • (corrected_delta_q.inverse * (Qi.inverse * Qj)).vec
  let rv := Qi.inverse.transform (s.sum_dt • G + Vj - Vi) - corrected_delta_v
  let rba := Baj - Bai
  let rbg := Bgj - Bgi
  (⟨rp, rq, rv, rba, rbg⟩, s)

end IntegrationBase

/-- Feed a list of `(dt, acc, gyr)` samples through `push_back` in
order. -/
noncomputable def pushMany (s : IntegrationBase) (samples : List (ℝ × Vec3 × Vec3)) : IntegrationBase :=
  samples.foldl (fun t p => t.push_back p.1 p.2.1 p.2.2) s

/-- The fields of the state that the integration itself reads and
writes (everything except the transient `dt`, `acc_1`, `gyr_1`, the
immutable `linearized_acc`/`linearized_gyr` and the sample buffers). -/
structure Core where
  acc_0 : Vec3
  gyr_0 : Vec3
  linearized_ba : Vec3
  linearized_bg : Vec3
  jacobian : Matrix (Fin 15) (Fin 15) ℝ
  covariance : Matrix (Fin 15) (Fin 15) ℝ
  noise : Matrix (Fin 18) (Fin 18) ℝ
  sum_dt : ℝ
  delta_p : Vec3
  delta_q : Quat
  delta_v : Vec3

/-- Projection of a state onto its integration core. -/
def IntegrationBase.core (s : IntegrationBase) : Core :=
  ⟨s.acc_0, s.gyr_0, s.linearized_ba, s.linearized_bg, s.jacobian, s.covariance,
   s.noise, s.sum_dt, s.delta_p, s.delta_q, s.delta_v⟩

/-- The action of `propagate` on the integration core. -/
noncomputable def stepCore (c : Core) (dt0 : ℝ) (a g : Vec3) : Core :=
  let r := midPointIntegration dt0 c.acc_0 c.gyr_0 a g c.delta_p c.delta_q c.delta_v
    c.linearized_ba c.linearized_bg c.jacobian c.covariance c.noise true
  ⟨a, g, r.result_linearized_ba, r.result_linearized_bg, r.jacobian, r.covariance,
   c.noise, c.sum_dt + dt0, r.result_delta_p, r.result_delta_q.normalize,
   r.result_delta_v⟩


end SRVIO

namespace SRVIO

open IntegrationBase

theorem vec3_ext_iff {a b : Vec3} : a = b ↔ a.x = b.x ∧ a.y = b.y ∧ a.z = b.z := by
  constructor
  · rintro rfl; exact ⟨rfl, rfl, rfl⟩
  · rcases a with ⟨ax, ay, az⟩
    rcases b with ⟨bx, by2, bz⟩
    rintro ⟨h1, h2, h3⟩
    simp_all

theorem quat_ext_iff {p q : Quat} :
    p = q ↔ p.w = q.w ∧ p.x = q.x ∧ p.y = q.y ∧ p.z = q.z := by
  constructor
  · rintro rfl; exact ⟨rfl, rfl, rfl, rfl⟩
  · rcases p with ⟨pw, px, py, pz⟩
    rcases q with ⟨qw, qx, qy, qz⟩
    rintro ⟨h1, h2, h3, h4⟩
    simp_all

@[simp] theorem Vec3.zero_x : Vec3.zero.x = 0 := rfl

@[simp] theorem Vec3.zero_y : Vec3.zero.y = 0 := rfl

@[simp] theorem Vec3.zero_z : Vec3.zero.z = 0 := rfl

@[simp] theorem Vec3.add_x (a b : Vec3) : (a + b).x = a.x + b.x := rfl

@[simp] theorem Vec3.add_y (a b : Vec3) : (a + b).y = a.y + b.y := rfl

@[simp] theorem Vec3.add_z (a b : Vec3) : (a + b).z = a.z + b.z := rfl

@[simp] theorem Vec3.sub_x (a b : Vec3) : (a - b).x = a.x - b.x := rfl

@[simp] theorem Vec3.sub_y (a b : Vec3) : (a - b).y = a.y - b.y := rfl

@[simp] theorem Vec3.sub_z (a b : Vec3) : (a - b).z = a.z - b.z := rfl

@[simp] theorem Vec3.vsmul_x (c : ℝ) (a : Vec3) : (c • a).x = c * a.x := rfl

@[simp] theorem Vec3.vsmul_y (c : ℝ) (a : Vec3) : (c • a).y = c * a.y := rfl

@[simp] theorem Vec3.vsmul_z (c : ℝ) (a : Vec3) : (c • a).z = c * a.z := rfl

@[simp] theorem Vec3.cross_x (a b : Vec3) : (a.cross b).x = a.y * b.z - a.z * b.y := rfl

@[simp] theorem Vec3.cross_y (a b : Vec3) : (a.cross b).y = a.z * b.x - a.x * b.z := rfl

@[simp] theorem Vec3.cross_z (a b : Vec3) : (a.cross b).z = a.x * b.y - a.y * b.x := rfl

@[simp] theorem Quat.one_w : Quat.one.w = 1 := rfl

@[simp] theorem Quat.one_x : Quat.one.x = 0 := rfl

@[simp] theorem Quat.one_y : Quat.one.y = 0 := rfl

@[simp] theorem Quat.one_z : Quat.one.z = 0 := rfl

@[simp] theorem Quat.vec_x (q : Quat) : q.vec.x = q.x := rfl

@[simp] theorem Quat.vec_y (q : Quat) : q.vec.y = q.y := rfl

@[simp] theorem Quat.vec_z (q : Quat) : q.vec.z = q.z := rfl

@[simp] theorem Quat.mul_w (p q : Quat) :
    (p * q).w = p.w * q.w - p.x * q.x - p.y * q.y - p.z * q.z := rfl

@[simp] theorem Quat.mul_x (p q : Quat) :
    (p * q).x = p.w * q.x + p.x * q.w + p.y * q.z - p.z * q.y := rfl

@[simp] theorem Quat.mul_y (p q : Quat) :
    (p * q).y = p.w * q.y - p.x * q.z + p.y * q.w + p.z * q.x := rfl

@[simp] theorem Quat.mul_z (p q : Quat) :
    (p * q).z = p.w * q.z + p.x * q.y - p.y * q.x + p.z * q.w := rfl

@[simp] theorem Quat.smul_w (c : ℝ) (q : Quat) : (c • q).w = c * q.w := rfl

@[simp] theorem Quat.smul_x (c : ℝ) (q : Quat) : (c • q).x = c * q.x := rfl

@[simp] theorem Quat.smul_y (c : ℝ) (q : Quat) : (c • q).y = c * q.y := rfl

@[simp] theorem Quat.smul_z (c : ℝ) (q : Quat) : (c • q).z = c * q.z := rfl

theorem push_back_linearized_acc (s : IntegrationBase) (dt0 : ℝ) (a g : Vec3) :
    (s.push_back dt0 a g).linearized_acc = s.linearized_acc := rfl

theorem push_back_linearized_gyr (s : IntegrationBase) (dt0 : ℝ) (a g : Vec3) :
    (s.push_back dt0 a g).linearized_gyr = s.linearized_gyr := rfl

theorem pushMany_linearized_acc (s : IntegrationBase)
    (l : List (ℝ × Vec3 × Vec3)) : (pushMany s l).linearized_acc = s.linearized_acc := by
  induction l generalizing s with
  | nil => rfl
  | cons p l ih => exact (ih _).trans rfl

theorem pushMany_linearized_gyr (s : IntegrationBase)
    (l : List (ℝ × Vec3 × Vec3)) : (pushMany s l).linearized_gyr = s.linearized_gyr := by
  induction l generalizing s with
  | nil => rfl
  | cons p l ih => exact (ih _).trans rfl

/-- Over the reals the conjugate transpose is the transpose. -/
theorem conjTranspose_eq_transpose_real {m n : Type} (M : Matrix m n ℝ) :
    M.conjTranspose = M.transpose := by
  ext i j
  simp [Matrix.conjTranspose_apply]

/-- The noise matrix of the constructor is positive semidefinite. -/
theorem noiseMat_posSemidef : noiseMat.PosSemidef := by
  refine Matrix.posSemidef_diagonal_iff.mpr fun j => ?_
  have h : ∀ b : Fin 6, 0 ≤ noiseDiag6 b := by
    intro b
    fin_cases b <;> simp [noiseDiag6] <;> exact mul_self_nonneg _
  exact h _

/-- One propagation step keeps the covariance positive semidefinite. -/
theorem propagate_covariance_posSemidef (t : IntegrationBase) (d : ℝ) (a g : Vec3)
    (hc : t.covariance.PosSemidef) (hn : t.noise.PosSemidef) :
    ((t.propagate d a g).covariance).PosSemidef := by
  have key : ∀ (F : Matrix (Fin 15) (Fin 15) ℝ) (V : Matrix (Fin 15) (Fin 18) ℝ),
      (F * t.covariance * F.transpose + V * t.noise * V.transpose).PosSemidef := by
    intro F V
    have hF := hc.mul_mul_conjTranspose_same F
    have hV := hn.mul_mul_conjTranspose_same V
    rw [conjTranspose_eq_transpose_real] at hF hV
    exact hF.add hV
  exact key _ _

theorem pushMany_covariance_posSemidef :
    ∀ (l : List (ℝ × Vec3 × Vec3)) (t : IntegrationBase),
      t.covariance.PosSemidef → t.noise.PosSemidef →
      ((pushMany t l).covariance.PosSemidef ∧ (pushMany t l).noise.PosSemidef) := by
  intro l
  induction l with
  | nil => exact fun t hc hn => ⟨hc, hn⟩
  | cons p l ih =>
    intro t hc hn
    exact ih _ (propagate_covariance_posSemidef _ _ _ _ hc hn) hn

/-- Claim C4: for every constructed instance and every sequence of
samples, the covariance — zero at construction, updated with the
constant diagonal noise matrix of squared noise densities — is symmetric
and positive semidefinite after every propagation step. -/
theorem covariance_symmetric_posSemidef (acc0 gyr0 ba bg : Vec3)
    (samples : List (ℝ × Vec3 × Vec3)) :
    (pushMany (IntegrationBase.init acc0 gyr0 ba bg) samples).covariance.PosSemidef ∧
      (pushMany (IntegrationBase.init acc0 gyr0 ba bg) samples).covariance.transpose
        = (pushMany (IntegrationBase.init acc0 gyr0 ba bg) samples).covariance := by
  have h := (pushMany_covariance_posSemidef samples (IntegrationBase.init acc0 gyr0 ba bg)
    Matrix.PosSemidef.zero noiseMat_posSemidef).1
  refine ⟨h, ?_⟩
  rw [← conjTranspose_eq_transpose_real]
  exact h.isHermitian

theorem core_propagate (s : IntegrationBase) (dt0 : ℝ) (a g : Vec3) :
    (s.propagate dt0 a g).core = stepCore s.core dt0 a g := rfl

theorem core_foldl_propagate (l : List (ℝ × Vec3 × Vec3)) (t : IntegrationBase) :
    (l.foldl (fun u p => u.propagate p.1 p.2.1 p.2.2) t).core
      = l.foldl (fun c p => stepCore c p.1 p.2.1 p.2.2) t.core := by
  induction l generalizing t with
  | nil => rfl
  | cons p l ih => exact ih _

theorem core_pushMany (l : List (ℝ × Vec3 × Vec3)) (t : IntegrationBase) :
    (pushMany t l).core = l.foldl (fun c p => stepCore c p.1 p.2.1 p.2.2) t.core := by
  induction l generalizing t with
  | nil => rfl
  | cons p l ih => exact ih _

theorem pushMany_noise (l : List (ℝ × Vec3 × Vec3)) (t : IntegrationBase) :
    (pushMany t l).noise = t.noise := by
  induction l generalizing t with
  | nil => rfl
  | cons p l ih => exact (ih _).trans rfl

theorem pushMany_dt_buf (l : List (ℝ × Vec3 × Vec3)) (t : IntegrationBase) :
    (pushMany t l).dt_buf = t.dt_buf ++ l.map (fun p => p.1) := by
  induction l generalizing t with
  | nil => simp [pushMany]
  | cons p l ih =>
    show (pushMany (t.push_back p.1 p.2.1 p.2.2) l).dt_buf = _
    rw [ih]
    show (t.dt_buf ++ [p.1]) ++ _ = _
    simp

theorem pushMany_acc_buf (l : List (ℝ × Vec3 × Vec3)) (t : IntegrationBase) :
    (pushMany t l).acc_buf = t.acc_buf ++ l.map (fun p => p.2.1) := by
  induction l generalizing t with
  | nil => simp [pushMany]
  | cons p l ih =>
    show (pushMany (t.push_back p.1 p.2.1 p.2.2) l).acc_buf = _
    rw [ih]
    show (t.acc_buf ++ [p.2.1]) ++ _ = _
    simp

theorem pushMany_gyr_buf (l : List (ℝ × Vec3 × Vec3)) (t : IntegrationBase) :
    (pushMany t l).gyr_buf = t.gyr_buf ++ l.map (fun p => p.2.2) := by
  induction l generalizing t with
  | nil => simp [pushMany]
  | cons p l ih =>
    show (pushMany (t.push_back p.1 p.2.1 p.2.2) l).gyr_buf = _
    rw [ih]
    show (t.gyr_buf ++ [p.2.2]) ++ _ = _
    simp

theorem zip_map_triple (l : List (ℝ × Vec3 × Vec3)) :
    (l.map fun p => p.1).zip ((l.map fun p => p.2.1).zip (l.map fun p => p.2.2)) = l := by
  induction l with
  | nil => rfl
  | cons p l ih => simp [ih]

/-- Claim C5: for every instance built from an initial sample and bias
pair and fed any samples via `push_back`, `repropagate` with the same
biases the instance already used leaves `sum_dt`, `delta_p`, `delta_q`,
`delta_v`, `jacobian` and `covariance` equal to their values after the
original sequential propagation. -/
theorem repropagate_same_bias_reproduces (acc0 gyr0 ba bg : Vec3)
    (samples : List (ℝ × Vec3 × Vec3)) :
    ((pushMany (IntegrationBase.init acc0 gyr0 ba bg) samples).repropagate ba bg).sum_dt
        = (pushMany (IntegrationBase.init acc0 gyr0 ba bg) samples).sum_dt ∧
      ((pushMany (IntegrationBase.init acc0 gyr0 ba bg) samples).repropagate ba bg).delta_p
        = (pushMany (IntegrationBase.init acc0 gyr0 ba bg) samples).delta_p ∧
      ((pushMany (IntegrationBase.init acc0 gyr0 ba bg) samples).repropagate ba bg).delta_q
        = (pushMany (IntegrationBase.init acc0 gyr0 ba bg) samples).delta_q ∧
      ((pushMany (IntegrationBase.init acc0 gyr0 ba bg) samples).repropagate ba bg).delta_v
        = (pushMany (IntegrationBase.init acc0 gyr0 ba bg) samples).delta_v ∧
      ((pushMany (IntegrationBase.init acc0 gyr0 ba bg) samples).repropagate ba bg).jacobian
        = (pushMany (IntegrationBase.init acc0 gyr0 ba bg) samples).jacobian ∧
      ((pushMany (IntegrationBase.init acc0 gyr0 ba bg) samples).repropagate ba bg).covariance
        = (pushMany (IntegrationBase.init acc0 gyr0 ba bg) samples).covariance := by
  set s := pushMany (IntegrationBase.init acc0 gyr0 ba bg) samples with hs
  have hbuf : s.dt_buf.zip (s.acc_buf.zip s.gyr_buf) = samples := by
    rw [hs, pushMany_dt_buf, pushMany_acc_buf, pushMany_gyr_buf]
    show (([] : List ℝ) ++ _).zip ((([] : List Vec3) ++ _).zip (([] : List Vec3) ++ _)) = _
    rw [List.nil_append, List.nil_append, List.nil_append]
    exact zip_map_triple samples
  have hreset : (s.repropagate_reset ba bg).core
      = (IntegrationBase.init acc0 gyr0 ba bg).core := by
    show Core.mk s.linearized_acc s.linearized_gyr ba bg 1 0 s.noise 0
        Vec3.zero Quat.one Vec3.zero = _
    rw [hs, pushMany_linearized_acc, pushMany_linearized_gyr, pushMany_noise]
    rfl
  have hcore : (s.repropagate ba bg).core = s.core := by
    show ((s.dt_buf.zip (s.acc_buf.zip s.gyr_buf)).foldl
        (fun t p => t.propagate p.1 p.2.1 p.2.2) (s.repropagate_reset ba bg)).core = s.core
    rw [core_foldl_propagate, hbuf, hreset, ← core_pushMany, ← hs]
  exact ⟨congrArg Core.sum_dt hcore, congrArg Core.delta_p hcore,
    congrArg Core.delta_q hcore, congrArg Core.delta_v hcore,
    congrArg Core.jacobian hcore, congrArg Core.covariance hcore⟩

/-- Claim C6: `evaluate` mutates no internal state — the returned state
is the argument state unchanged — and a second call with the same
arguments returns the same residual. -/
theorem evaluate_pure (s : IntegrationBase) (Pi : Vec3) (Qi : Quat)
    (Vi Bai Bgi Pj : Vec3) (Qj : Quat) (Vj Baj Bgj : Vec3) :
    (s.evaluate Pi Qi Vi Bai Bgi Pj Qj Vj Baj Bgj).2 = s ∧
      ((s.evaluate Pi Qi Vi Bai Bgi Pj Qj Vj Baj Bgj).2.evaluate
          Pi Qi Vi Bai Bgi Pj Qj Vj Baj Bgj).1
        = (s.evaluate Pi Qi Vi Bai Bgi Pj Qj Vj Baj Bgj).1 :=
  ⟨rfl, rfl⟩

/-- Claim C1: every `propagate(dt, acc_1, gyr_1)` call advances the
position and velocity increments by mid-point integration: with
`a_mean` the average of the bias-corrected force at sample k rotated by
the pre-update `delta_q` and the bias-corrected force at sample k+1
rotated by the post-update orientation, `delta_p` becomes
`delta_p + delta_v*dt + 0.5*a_mean*dt^2` and `delta_v` becomes
`delta_v + a_mean*dt`. -/
theorem propagate_midpoint_position_velocity (s : IntegrationBase) (dt0 : ℝ)
    (acc1 gyr1 : Vec3) :
    let un_gyr := (0.5 : ℝ) • (s.gyr_0 + gyr1) - s.linearized_bg
    let q_post := s.delta_q *
      ⟨1, un_gyr.x * dt0 / 2, un_gyr.y * dt0 / 2, un_gyr.z * dt0 / 2⟩
    let a_mean := (0.5 : ℝ) • (s.delta_q.transform (s.acc_0 - s.linearized_ba) +
      q_post.transform (acc1 - s.linearized_ba))
    (s.propagate dt0 acc1 gyr1).delta_p
        = s.delta_p + dt0 • s.delta_v + (0.5 * dt0 * dt0) • a_mean ∧
      (s.propagate dt0 acc1 gyr1).delta_v = s.delta_v + dt0 • a_mean :=
  ⟨rfl, rfl⟩

/-- Claim C2: every `propagate(dt, acc_1, gyr_1)` call obtains the new
orientation by forming the unnormalized small-angle quaternion
`(1, 0.5*wx*dt, 0.5*wy*dt, 0.5*wz*dt)` from the mean bias-corrected
angular rate `w = 0.5*(gyr_0 + gyr_1) - linearized_bg`, multiplying the
current `delta_q` on the right by it, and renormalizing. -/
theorem propagate_orientation_update (s : IntegrationBase) (dt0 : ℝ)
    (acc1 gyr1 : Vec3) :
    let un_gyr := (0.5 : ℝ) • (s.gyr_0 + gyr1) - s.linearized_bg
    (s.propagate dt0 acc1 gyr1).delta_q
      = Quat.normalize (s.delta_q *
          ⟨1, un_gyr.x * dt0 / 2, un_gyr.y * dt0 / 2, un_gyr.z * dt0 / 2⟩) :=
  rfl

/-- Claim C3: every propagation step updates the uncertainty state by
the discrete Kalman prediction rule `jacobian ← F * jacobian`,
`covariance ← F * covariance * Fᵀ + V * noise * Vᵀ`, with `F` the 15x15
error-state transition matrix and `V` the 15x18 noise-input matrix built
for that step. -/
theorem propagate_kalman_update (s : IntegrationBase) (dt0 : ℝ)
    (acc1 gyr1 : Vec3) :
    let un_gyr := (0.5 : ℝ) • (s.gyr_0 + gyr1) - s.linearized_bg
    let q_post := s.delta_q *
      ⟨1, un_gyr.x * dt0 / 2, un_gyr.y * dt0 / 2, un_gyr.z * dt0 / 2⟩
    let F := Fmat dt0 s.acc_0 s.gyr_0 acc1 gyr1 s.delta_q q_post
      s.linearized_ba s.linearized_bg
    let V := Vmat dt0 acc1 s.delta_q q_post s.linearized_ba
    (s.propagate dt0 acc1 gyr1).jacobian = F * s.jacobian ∧
      (s.propagate dt0 acc1 gyr1).covariance
        = F * s.covariance * F.transpose + V * s.noise * V.transpose :=
  ⟨rfl, rfl⟩

/-- Claim C10: for every instance built by the constructor and fed any
samples via `push_back`, the members `linearized_acc`/`linearized_gyr`
still hold the constructor's first sample, and the reset at the top of
`repropagate` restores the transient left-endpoint sample
`acc_0`/`gyr_0` to exactly that first sample, so the first replayed step
integrates from the same initial sample as the original propagation. -/
theorem repropagate_restores_first_sample (acc0 gyr0 ba0 bg0 : Vec3)
    (samples : List (ℝ × Vec3 × Vec3)) (ba bg : Vec3) :
    let s := pushMany (IntegrationBase.init acc0 gyr0 ba0 bg0) samples
    s.linearized_acc = acc0 ∧ s.linearized_gyr = gyr0 ∧
      (s.repropagate_reset ba bg).acc_0 = acc0 ∧
      (s.repropagate_reset ba bg).gyr_0 = gyr0 := by
  refine ⟨pushMany_linearized_acc _ _, pushMany_linearized_gyr _ _, ?_, ?_⟩
  · exact pushMany_linearized_acc _ _
  · exact pushMany_linearized_gyr _ _

/-- Claim C7: `repropagate` on an instance with an empty sample buffer
replays nothing and only resets the state: `sum_dt = 0`, zero deltas,
identity `delta_q` and `jacobian`, zero `covariance`, and the
linearized biases set to the given values. -/
theorem repropagate_empty_buffer (s : IntegrationBase) (ba bg : Vec3)
    (h : s.dt_buf = []) :
    (s.repropagate ba bg).sum_dt = 0 ∧
      (s.repropagate ba bg).delta_p = Vec3.zero ∧
      (s.repropagate ba bg).delta_q = Quat.one ∧
      (s.repropagate ba bg).delta_v = Vec3.zero ∧
      (s.repropagate ba bg).jacobian = 1 ∧
      (s.repropagate ba bg).covariance = 0 ∧
      (s.repropagate ba bg).linearized_ba = ba ∧
      (s.repropagate ba bg).linearized_bg = bg := by
  simp [IntegrationBase.repropagate, IntegrationBase.repropagate_reset, h]

/-- Witness for C7 at a concrete freshly constructed instance. -/
theorem repropagate_empty_buffer_witness :
    (IntegrationBase.init Vec3.zero Vec3.zero Vec3.zero Vec3.zero).dt_buf = [] ∧
      (((IntegrationBase.init Vec3.zero Vec3.zero Vec3.zero Vec3.zero).repropagate G Vec3.zero).sum_dt = 0 ∧
        ((IntegrationBase.init Vec3.zero Vec3.zero Vec3.zero Vec3.zero).repropagate G Vec3.zero).delta_p = Vec3.zero ∧
        ((IntegrationBase.init Vec3.zero Vec3.zero Vec3.zero Vec3.zero).repropagate G Vec3.zero).delta_q = Quat.one ∧
        ((IntegrationBase.init Vec3.zero Vec3.zero Vec3.zero Vec3.zero).repropagate G Vec3.zero).delta_v = Vec3.zero ∧
        ((IntegrationBase.init Vec3.zero Vec3.zero Vec3.zero Vec3.zero).repropagate G Vec3.zero).jacobian = 1 ∧
        ((IntegrationBase.init Vec3.zero Vec3.zero Vec3.zero Vec3.zero).repropagate G Vec3.zero).covariance = 0 ∧
        ((IntegrationBase.init Vec3.zero Vec3.zero Vec3.zero Vec3.zero).repropagate G Vec3.zero).linearized_ba = G ∧
        ((IntegrationBase.init Vec3.zero Vec3.zero Vec3.zero Vec3.zero).repropagate G Vec3.zero).linearized_bg = Vec3.zero) :=
  ⟨rfl, repropagate_empty_buffer (IntegrationBase.init Vec3.zero Vec3.zero Vec3.zero Vec3.zero) G Vec3.zero rfl⟩

end SRVIO

namespace SRVIO

theorem quat_one_normalize : Quat.one.normalize = Quat.one := by
  have h1 : Quat.one.squaredNorm = 1 := by
    simp [Quat.squaredNorm]
  rw [Quat.normalize, h1]
  norm_num [quat_ext_iff, Real.sqrt_one]

/-- One step of `push_back` with a sample equal to the linearized biases
keeps the integrated deltas at zero/identity and preserves the
invariant fields. -/
theorem zero_motion_step (t : IntegrationBase) (dt0 : ℝ) (ba bg : Vec3)
    (h0 : t.acc_0 = ba) (hg : t.gyr_0 = bg) (hba : t.linearized_ba = ba)
    (hbg : t.linearized_bg = bg) (hp : t.delta_p = Vec3.zero)
    (hq : t.delta_q = Quat.one) (hv : t.delta_v = Vec3.zero) :
    (t.push_back dt0 ba bg).acc_0 = ba ∧ (t.push_back dt0 ba bg).gyr_0 = bg ∧
      (t.push_back dt0 ba bg).linearized_ba = ba ∧
      (t.push_back dt0 ba bg).linearized_bg = bg ∧
      (t.push_back dt0 ba bg).delta_p = Vec3.zero ∧
      (t.push_back dt0 ba bg).delta_q = Quat.one ∧
      (t.push_back dt0 ba bg).delta_v = Vec3.zero := by
  have hgyr : (0.5 : ℝ) • (t.gyr_0 + bg) - t.linearized_bg = Vec3.zero := by
    rw [hg, hbg, vec3_ext_iff]
    refine ⟨?_, ?_, ?_⟩ <;> simp <;> ring
  have hrdq : t.delta_q * ⟨1, ((0.5 : ℝ) • (t.gyr_0 + bg) - t.linearized_bg).x * dt0 / 2,
      ((0.5 : ℝ) • (t.gyr_0 + bg) - t.linearized_bg).y * dt0 / 2,
      ((0.5 : ℝ) • (t.gyr_0 + bg) - t.linearized_bg).z * dt0 / 2⟩ = Quat.one := by
    rw [hgyr, hq, quat_ext_iff]
    norm_num
  have hacc0 : t.delta_q.transform (t.acc_0 - t.linearized_ba) = Vec3.zero := by
    rw [h0, hba, hq, vec3_ext_iff]
    refine ⟨?_, ?_, ?_⟩ <;> simp [Quat.transform]
  have hacc1 : Quat.one.transform (ba - t.linearized_ba) = Vec3.zero := by
    rw [hba, vec3_ext_iff]
    refine ⟨?_, ?_, ?_⟩ <;> simp [Quat.transform]
  have ep : (t.push_back dt0 ba bg).delta_p
      = t.delta_p + dt0 • t.delta_v + (0.5 * dt0 * dt0) •
        ((0.5 : ℝ) • (t.delta_q.transform (t.acc_0 - t.linearized_ba) +
          (t.delta_q * ⟨1, ((0.5 : ℝ) • (t.gyr_0 + bg) - t.linearized_bg).x * dt0 / 2,
            ((0.5 : ℝ) • (t.gyr_0 + bg) - t.linearized_bg).y * dt0 / 2,
            ((0.5 : ℝ) • (t.gyr_0 + bg) - t.linearized_bg).z * dt0 / 2⟩).transform
              (ba - t.linearized_ba))) := rfl
  have eq2 : (t.push_back dt0 ba bg).delta_q
      = Quat.normalize (t.delta_q *
          ⟨1, ((0.5 : ℝ) • (t.gyr_0 + bg) - t.linearized_bg).x * dt0 / 2,
            ((0.5 : ℝ) • (t.gyr_0 + bg) - t.linearized_bg).y * dt0 / 2,
            ((0.5 : ℝ) • (t.gyr_0 + bg) - t.linearized_bg).z * dt0 / 2⟩) := rfl
  have ev : (t.push_back dt0 ba bg).delta_v
      = t.delta_v + dt0 •
        ((0.5 : ℝ) • (t.delta_q.transform (t.acc_0 - t.linearized_ba) +
          (t.delta_q * ⟨1, ((0.5 : ℝ) • (t.gyr_0 + bg) - t.linearized_bg).x * dt0 / 2,
            ((0.5 : ℝ) • (t.gyr_0 + bg) - t.linearized_bg).y * dt0 / 2,
            ((0.5 : ℝ) • (t.gyr_0 + bg) - t.linearized_bg).z * dt0 / 2⟩).transform
              (ba - t.linearized_ba))) := rfl
  refine ⟨rfl, rfl, hba, hbg, ?_, ?_, ?_⟩
  · rw [ep, hrdq, hacc0, hacc1, hp, hv, vec3_ext_iff]
    refine ⟨?_, ?_, ?_⟩ <;> simp
  · rw [eq2, hrdq, quat_one_normalize]
  · rw [ev, hrdq, hacc0, hacc1, hv, vec3_ext_iff]
    refine ⟨?_, ?_, ?_⟩ <;> simp

/-- Claim C8 (amended): if the constructor's initial sample and every
pushed sample have angular rate equal to the linearized gyro bias and
specific force equal to the linearized accelerometer bias (so the
bias-corrected angular rate and specific force are zero), then
`delta_p` and `delta_v` stay at zero and `delta_q` stays at the
identity after any number of steps. -/
theorem zero_motion_bias_corrected (ba bg : Vec3)
    (samples : List (ℝ × Vec3 × Vec3))
    (hs : ∀ p ∈ samples, p.2.1 = ba ∧ p.2.2 = bg) :
    (pushMany (IntegrationBase.init ba bg ba bg) samples).delta_p = Vec3.zero ∧
      (pushMany (IntegrationBase.init ba bg ba bg) samples).delta_v = Vec3.zero ∧
      (pushMany (IntegrationBase.init ba bg ba bg) samples).delta_q = Quat.one := by
  suffices h : ∀ (l : List (ℝ × Vec3 × Vec3)) (t : IntegrationBase),
      (∀ p ∈ l, p.2.1 = ba ∧ p.2.2 = bg) →
      t.acc_0 = ba → t.gyr_0 = bg → t.linearized_ba = ba → t.linearized_bg = bg →
      t.delta_p = Vec3.zero → t.delta_q = Quat.one → t.delta_v = Vec3.zero →
      ((pushMany t l).delta_p = Vec3.zero ∧ (pushMany t l).delta_v = Vec3.zero ∧
        (pushMany t l).delta_q = Quat.one) by
    exact h samples _ hs rfl rfl rfl rfl rfl rfl rfl
  intro l
  induction l with
  | nil => exact fun t _ _ _ _ _ hp hq hv => ⟨hp, hv, hq⟩
  | cons p l ih =>
    intro t hl h0 hg1 hba1 hbg1 hp hq hv
    obtain ⟨hpa, hpg⟩ := hl p (List.mem_cons_self p l)
    have hl2 : ∀ q ∈ l, q.2.1 = ba ∧ q.2.2 = bg :=
      fun q hq2 => hl q (List.mem_cons_of_mem p hq2)
    have hstep := zero_motion_step t p.1 ba bg h0 hg1 hba1 hbg1 hp hq hv
    have e1 : pushMany t (p :: l) = pushMany (t.push_back p.1 p.2.1 p.2.2) l := rfl
    rw [e1, hpa, hpg]
    exact ih _ hl2 hstep.1 hstep.2.1 hstep.2.2.1 hstep.2.2.2.1 hstep.2.2.2.2.1
      hstep.2.2.2.2.2.1 hstep.2.2.2.2.2.2

/-- Witness for C8 (amended) at one concrete sample with zero biases. -/
theorem zero_motion_bias_corrected_witness :
    (∀ p ∈ [((1 : ℝ), Vec3.zero, Vec3.zero)],
        p.2.1 = Vec3.zero ∧ p.2.2 = Vec3.zero) ∧
      ((pushMany (IntegrationBase.init Vec3.zero Vec3.zero Vec3.zero Vec3.zero)
          [((1 : ℝ), Vec3.zero, Vec3.zero)]).delta_p = Vec3.zero ∧
        (pushMany (IntegrationBase.init Vec3.zero Vec3.zero Vec3.zero Vec3.zero)
          [((1 : ℝ), Vec3.zero, Vec3.zero)]).delta_v = Vec3.zero ∧
        (pushMany (IntegrationBase.init Vec3.zero Vec3.zero Vec3.zero Vec3.zero)
          [((1 : ℝ), Vec3.zero, Vec3.zero)]).delta_q = Quat.one) :=
  ⟨by simp, zero_motion_bias_corrected Vec3.zero Vec3.zero _ (by simp)⟩

/-- Counterexample to claim C8 as stated: with zero biases, one sample
of zero angular rate whose specific force equals the (bias-corrected)
gravity vector `G` leaves `delta_v` nonzero — the propagator does not
subtract gravity, so `delta_v` accumulates `G * dt`. -/
theorem zero_motion_counterexample :
    (pushMany (IntegrationBase.init G Vec3.zero Vec3.zero Vec3.zero)
        [((1 : ℝ), G, Vec3.zero)]).delta_v ≠ Vec3.zero := by
  have ev : (pushMany (IntegrationBase.init G Vec3.zero Vec3.zero Vec3.zero)
        [((1 : ℝ), G, Vec3.zero)]).delta_v
      = Vec3.zero + (1 : ℝ) •
        ((0.5 : ℝ) • (Quat.one.transform (G - Vec3.zero) +
          (Quat.one * ⟨1, ((0.5 : ℝ) • (Vec3.zero + Vec3.zero) - Vec3.zero).x * 1 / 2,
            ((0.5 : ℝ) • (Vec3.zero + Vec3.zero) - Vec3.zero).y * 1 / 2,
            ((0.5 : ℝ) • (Vec3.zero + Vec3.zero) - Vec3.zero).z * 1 / 2⟩).transform
              (G - Vec3.zero))) := rfl
  intro hcontra
  have hz := (vec3_ext_iff.mp hcontra).2.2
  rw [ev] at hz
  norm_num [Quat.transform, G] at hz

/-- Claim C9 (amended): a non-positive `dt` passed to
`push_back`/`propagate` is not rejected: the sample is appended to the
buffer and integrated into the state (`dt > 0` is an unchecked caller
precondition). -/
theorem nonpositive_dt_integrated (s : IntegrationBase) (dt0 : ℝ)
    (h : dt0 ≤ 0) (a g : Vec3) :
    (s.push_back dt0 a g).dt_buf = s.dt_buf ++ [dt0] ∧
      (s.push_back dt0 a g).sum_dt = s.sum_dt + dt0 :=
  ⟨rfl, rfl⟩

/-- Witness for C9 (amended) at `dt = -1`. -/
theorem nonpositive_dt_integrated_witness :
    (-1 : ℝ) ≤ 0 ∧
      (((IntegrationBase.init Vec3.zero Vec3.zero Vec3.zero Vec3.zero).push_back
          (-1) G G).dt_buf
        = (IntegrationBase.init Vec3.zero Vec3.zero Vec3.zero Vec3.zero).dt_buf ++ [(-1 : ℝ)] ∧
        ((IntegrationBase.init Vec3.zero Vec3.zero Vec3.zero Vec3.zero).push_back
          (-1) G G).sum_dt
        = (IntegrationBase.init Vec3.zero Vec3.zero Vec3.zero Vec3.zero).sum_dt + (-1)) :=
  ⟨by norm_num,
    nonpositive_dt_integrated (IntegrationBase.init Vec3.zero Vec3.zero Vec3.zero Vec3.zero)
      (-1) (by norm_num) G G⟩

/-- Counterexample to claim C9 as stated: a negative `dt` is silently
integrated — after `push_back(-1, 0, 0)` on a fresh instance the sample
sits in the buffer and `sum_dt` has advanced by `-1`; nothing was
rejected. -/
theorem nonpositive_dt_counterexample :
    ((IntegrationBase.init Vec3.zero Vec3.zero Vec3.zero Vec3.zero).push_back
        (-1) Vec3.zero Vec3.zero).sum_dt = -1 ∧
      ((IntegrationBase.init Vec3.zero Vec3.zero Vec3.zero Vec3.zero).push_back
        (-1) Vec3.zero Vec3.zero).dt_buf = [(-1 : ℝ)] := by
  constructor
  · show (0 : ℝ) + (-1) = -1
    norm_num
  · rfl

end SRVIO
